import Mathlib

/-!
Verification of the `simple` recommendation strategy of the krr repository
(`robusta_krr/strategies/simple.py`).

The numeric domain of the Python code (IEEE floats) is embedded as exact
rationals `ℚ`; the inputs of the claims are finite samples so every value the
code computes (maxima, linearly interpolated percentiles, buffered products)
is rational.  The float sentinel `NaN` produced by `float("NaN")` is embedded
as a distinguished constructor of `PFloat`; the code only ever uses it as an
opaque "no recommendation" marker, never arithmetically, so a symbolic
sentinel with structural equality is faithful.

Python dictionaries preserve insertion order and have unique keys; they are
embedded as association lists.  Fallible Python operations (KeyError on dict
indexing, ValueError from `np.max` on an empty array, IndexError from
`np.percentile` on an empty array, pydantic ValidationError) are embedded as
`Except PyError`.
-/

/-- Modelled from the spec: the resource-type enumeration, one of
`{CPU, Memory}` (`ResourceType` is imported by the source from
`robusta_krr.core.abstract.strategies`, which is not part of the shown core). -/
inductive ResourceType where
  | CPU
  | Memory
deriving DecidableEq, Repr

/-- The ways the embedded Python code can raise. -/
inductive PyError where
  | keyError (rt : ResourceType)
  | valueError
  | indexError
  | validationError
deriving DecidableEq, Repr

/-- A Python float as used by this code: either the `NaN` sentinel or an
exact rational value. -/
inductive PFloat where
  | NaN
  | val (q : ℚ)
deriving DecidableEq, Repr

instance {ε α : Type} [DecidableEq ε] [DecidableEq α] : DecidableEq (Except ε α) :=
  fun x y =>
  match x, y with
  | .error e, .error f =>
      if h : e = f then .isTrue (by rw [h]) else .isFalse (by simp [h])
  | .error _, .ok _ => .isFalse (by simp)
  | .ok _, .error _ => .isFalse (by simp)
  | .ok a, .ok b =>
      if h : a = b then .isTrue (by rw [h]) else .isFalse (by simp [h])

/-- One container's sample series: an ordered sequence of
`(timestamp, value)` pairs (the 2-column `NDArray`). -/
abbrev Series := List (ℚ × ℚ)

/-- A per-container mapping `container id → series`
(a Python `dict[str, NDArray]`, insertion ordered). -/
abbrev ContainerMap := List (String × Series)

/-- `values[:, 1]`: the value column of a series. -/
def valueColumn (s : Series) : List ℚ := s.map Prod.snd

/-- `np.max` over a 1-d array: raises `ValueError` on an empty array,
otherwise the maximum element. -/
def npMax (l : List ℚ) : Except PyError ℚ :=
  match l with
  | [] => .error .valueError
  | a :: t => .ok (t.foldl max a)

/-- The maximum of a list of rationals (Python's builtin `max` on a
non-empty list; the `[]` case is a junk value never reached by the code). -/
def listMax (l : List ℚ) : ℚ :=
  match l with
  | [] => 0
  | a :: t => t.foldl max a

/-- `np.percentile(a, q)` with numpy's default linear interpolation between
closest ranks: validates `0 ≤ q ≤ 100` (else `ValueError`), raises
`IndexError` on an empty array, and otherwise returns
`a_sorted[i] + frac * (a_sorted[i+1] - a_sorted[i])` where
`i + frac = q/100 * (n - 1)` and the upper index is clipped to `n - 1`. -/
def npPercentile (l : List ℚ) (q : ℚ) : Except PyError ℚ :=
  if q < 0 ∨ 100 < q then .error .valueError
  else
    match l with
    | [] => .error .indexError
    | a :: t =>
      let s := List.insertionSort (· ≤ ·) (a :: t)
      let rank : ℚ := q / 100 * ((s.length : ℚ) - 1)
      let i : ℕ := (Rat.floor rank).toNat
      let lo := s.getD i 0
      let hi := s.getD (min (i + 1) (s.length - 1)) 0
      .ok (lo + (rank - (i : ℚ)) * (hi - lo))

/-- Evaluate an effectful map over a list, stopping at the first raised
error (the semantics of a Python list comprehension over fallible calls). -/
def mapExcept (f : α → Except PyError β) : List α → Except PyError (List β)
  | [] => .ok []
  | a :: l =>
    match f a with
    | .error e => .error e
    | .ok b =>
      match mapExcept f l with
      | .error e => .error e
      | .ok bs => .ok (b :: bs)

/-- `SimpleStrategySettings`: the two tunables with their pydantic
defaults (`cpu_percentile = 99`, `memory_buffer_percentage = 5`). -/
structure SimpleStrategySettings where
  cpu_percentile : ℚ := 99
  memory_buffer_percentage : ℚ := 5
deriving DecidableEq, Repr

/-- The pydantic field constraints declared in the source:
`cpu_percentile` has `gt=0, le=100` and `memory_buffer_percentage` has
`gt=0`.  Construction returns the validated settings or a
`ValidationError`. -/
def mkSettings (cpu_percentile memory_buffer_percentage : ℚ) :
    Except PyError SimpleStrategySettings :=
  if 0 < cpu_percentile ∧ cpu_percentile ≤ 100 ∧ 0 < memory_buffer_percentage
  then .ok ⟨cpu_percentile, memory_buffer_percentage⟩
  else .error .validationError

/-- `SimpleStrategySettings.calculate_memory_proposal`:
`data_ = [np.max(values[:, 1]) for values in data.values()]`;
if `len(data_) == 0` return `NaN`; else
`max(data_) * (1 + memory_buffer_percentage / 100)`. -/
def SimpleStrategySettings.calculate_memory_proposal
    (self : SimpleStrategySettings) (data : ContainerMap) :
    Except PyError PFloat :=
  match mapExcept (fun values => npMax (valueColumn values.2)) data with
  | .error e => .error e
  | .ok [] => .ok .NaN
  | .ok (m :: ms) =>
      .ok (.val ((ms.foldl max m) * (1 + self.memory_buffer_percentage / 100)))

/-- `SimpleStrategySettings.calculate_cpu_proposal`:
return `NaN` if `len(data) == 0`; concatenate all containers' value columns
if `len(data) > 1`, else take the single container's value column; return
`np.percentile(data_, cpu_percentile)`. -/
def SimpleStrategySettings.calculate_cpu_proposal
    (self : SimpleStrategySettings) (data : ContainerMap) :
    Except PyError PFloat :=
  match data with
  | [] => .ok .NaN
  | [kv] => (npPercentile (valueColumn kv.2) self.cpu_percentile).map .val
  | kv₁ :: kv₂ :: rest =>
      (npPercentile (((kv₁ :: kv₂ :: rest).map fun kv => valueColumn kv.2).flatten)
        self.cpu_percentile).map .val

/-- Modelled from the spec: `K8sObjectData` is opaque workload metadata,
passed through untouched and not dereferenced by the reference strategy. -/
abbrev K8sObjectData := Unit

/-- Modelled from the spec: `HistoryData` is a mapping from resource type to
a per-container mapping; a resource type may be absent
(`robusta_krr.core.abstract.strategies` is not part of the shown core). -/
abbrev HistoryData := List (ResourceType × ContainerMap)

/-- Python dict lookup `d[k]` on an association list: the value of the first
(unique) matching key, `none` standing for a raised `KeyError`. -/
def dictGet (d : List (ResourceType × α)) (k : ResourceType) : Option α :=
  match d with
  | [] => none
  | (k', v) :: t => if k' = k then some v else dictGet t k

/-- `request` and `limit` of a recommendation: each either Python `None`
(`Option.none`) or a float (possibly the `NaN` sentinel). -/
structure ResourceRecommendation where
  request : Option PFloat
  limit : Option PFloat
deriving DecidableEq, Repr

/-- The strategy's output: a mapping from resource type to recommendation. -/
abbrev RunResult := List (ResourceType × ResourceRecommendation)

/-- `SimpleStrategy.run`: index `history_data[ResourceType.CPU]` (KeyError if
absent) and compute the CPU proposal, then the same for Memory, and assemble
`{CPU: (request=cpu, limit=None), Memory: (request=mem, limit=mem)}`. -/
def SimpleStrategy.run (settings : SimpleStrategySettings)
    (history_data : HistoryData) (_object_data : K8sObjectData) :
    Except PyError RunResult :=
  match dictGet history_data ResourceType.CPU with
  | none => .error (.keyError .CPU)
  | some cpuData =>
    match settings.calculate_cpu_proposal cpuData with
    | .error e => .error e
    | .ok cpu_usage =>
      match dictGet history_data ResourceType.Memory with
      | none => .error (.keyError .Memory)
      | some memData =>
        match settings.calculate_memory_proposal memData with
        | .error e => .error e
        | .ok memory_usage =>
          .ok [(.CPU, ⟨some cpu_usage, none⟩),
               (.Memory, ⟨some memory_usage, some memory_usage⟩)]

/-- The per-container value columns of an input mapping: the only part of
the input either proposal function depends on. -/
def columns (data : ContainerMap) : List (List ℚ) :=
  data.map fun kv => valueColumn kv.2

/-- The CPU aggregation of `calculate_cpu_proposal` expressed as a function
of the value columns alone. -/
def cpuFromColumns (cp : ℚ) (cols : List (List ℚ)) : Except PyError PFloat :=
  match cols with
  | [] => .ok .NaN
  | [c] => (npPercentile c cp).map .val
  | c₁ :: c₂ :: cr => (npPercentile ((c₁ :: c₂ :: cr).flatten) cp).map .val

/-- The Memory aggregation of `calculate_memory_proposal` expressed as a
function of the value columns alone. -/
def memFromColumns (b : ℚ) (cols : List (List ℚ)) : Except PyError PFloat :=
  match mapExcept npMax cols with
  | .error e => .error e
  | .ok [] => .ok .NaN
  | .ok (m :: ms) => .ok (.val ((ms.foldl max m) * (1 + b / 100)))

/-- The unbranched variant of `calculate_cpu_proposal`: always pool the
concatenation of all containers' value columns, with no single-container
fast path. -/
def calculate_cpu_proposal_unbranched (cp : ℚ) (data : ContainerMap) :
    Except PyError PFloat :=
  match data with
  | [] => .ok .NaN
  | kv :: rest =>
      (npPercentile (((kv :: rest).map fun x => valueColumn x.2).flatten) cp).map .val

/-- Replace the value (second component) of sample `j` of a series, keeping
its timestamp; out-of-range indices leave the series unchanged. -/
def setVal (s : Series) (j : ℕ) (v : ℚ) : Series :=
  s.set j ((s.getD j (0, 0)).1, v)

/-- Replace the value of sample `j` of container `ci`, all else fixed. -/
def setCVal (data : ContainerMap) (ci j : ℕ) (v : ℚ) : ContainerMap :=
  data.set ci
    ((data.getD ci ("", [])).1, setVal (data.getD ci ("", [])).2 j v)

theorem cpu_ne_memory : (ResourceType.CPU = ResourceType.Memory) = False :=
  eq_false fun h => ResourceType.noConfusion h

theorem memory_ne_cpu : (ResourceType.Memory = ResourceType.CPU) = False :=
  eq_false fun h => ResourceType.noConfusion h


theorem mapExcept_map {α β γ : Type} (f : β → Except PyError γ) (g : α → β)
    (l : List α) : mapExcept f (l.map g) = mapExcept (fun a => f (g a)) l := by
  induction l with
  | nil => rfl
  | cons a t ih => simp only [List.map_cons, mapExcept, ih]

theorem valueColumn_ne_nil {s : Series} (h : s ≠ []) : valueColumn s ≠ [] := by
  cases s with
  | nil => exact absurd rfl h
  | cons p t => simp [valueColumn]

theorem mapExcept_npMax_ok (cols : List (List ℚ)) (h : ∀ c ∈ cols, c ≠ []) :
    mapExcept npMax cols = .ok (cols.map listMax) := by
  induction cols with
  | nil => rfl
  | cons c t ih =>
    cases c with
    | nil => exact absurd rfl (h [] (List.mem_cons_self _ _))
    | cons a t' =>
      have ht : ∀ x ∈ t, x ≠ ([] : List ℚ) := fun x hx => h x (List.mem_cons_of_mem _ hx)
      simp only [mapExcept, npMax, ih ht, List.map_cons, listMax]

theorem mapExcept_npMax_error (cols : List (List ℚ)) (hc : ∃ c ∈ cols, c = []) :
    mapExcept npMax cols = .error .valueError := by
  induction cols with
  | nil => simp at hc
  | cons c t ih =>
    cases c with
    | nil => rfl
    | cons a t' =>
      obtain ⟨c', hc', hce⟩ := hc
      rcases List.mem_cons.mp hc' with rfl | hmem
      · exact absurd hce (List.cons_ne_nil _ _)
      · simp only [mapExcept, npMax, ih ⟨c', hmem, hce⟩]

theorem npPercentile_ok (l : List ℚ) (q : ℚ) (hl : l ≠ []) (h0 : 0 ≤ q)
    (h100 : q ≤ 100) : ∃ v, npPercentile l q = .ok v := by
  have hcond : ¬(q < 0 ∨ 100 < q) := by
    push_neg
    exact ⟨h0, h100⟩
  cases l with
  | nil => exact absurd rfl hl
  | cons a t =>
    cases hres : npPercentile (a :: t) q with
    | ok v => exact ⟨v, rfl⟩
    | error e =>
      unfold npPercentile at hres
      rw [if_neg hcond] at hres
      exact Except.noConfusion hres

theorem npPercentile_nil_error (q : ℚ) : ∃ e, npPercentile [] q = .error e := by
  by_cases h : q < 0 ∨ 100 < q
  · refine ⟨.valueError, ?_⟩
    simp only [npPercentile]
    rw [if_pos h]
  · refine ⟨.indexError, ?_⟩
    simp only [npPercentile]
    rw [if_neg h]

theorem calculate_cpu_proposal_eq_cpuFromColumns (s : SimpleStrategySettings)
    (data : ContainerMap) :
    s.calculate_cpu_proposal data = cpuFromColumns s.cpu_percentile (columns data) := by
  cases data with
  | nil => rfl
  | cons kv rest =>
    cases rest with
    | nil => rfl
    | cons kv₂ r => rfl

theorem calculate_memory_proposal_eq_memFromColumns (s : SimpleStrategySettings)
    (data : ContainerMap) :
    s.calculate_memory_proposal data =
      memFromColumns s.memory_buffer_percentage (columns data) := by
  simp only [SimpleStrategySettings.calculate_memory_proposal, memFromColumns,
    columns, mapExcept_map]

theorem memFromColumns_ok (b : ℚ) (c : List ℚ) (cs : List (List ℚ))
    (h : ∀ x ∈ c :: cs, x ≠ ([] : List ℚ)) :
    memFromColumns b (c :: cs) =
      .ok (.val (listMax ((c :: cs).map listMax) * (1 + b / 100))) := by
  simp only [memFromColumns, mapExcept_npMax_ok _ h, List.map_cons, listMax]

theorem le_foldl_max (l : List ℚ) : ∀ a : ℚ, a ≤ l.foldl max a := by
  induction l with
  | nil => exact fun a => le_refl a
  | cons b t ih => exact fun a => le_trans (le_max_left a b) (ih (max a b))

theorem foldl_max_mono {l l' : List ℚ} (h : List.Forall₂ (· ≤ ·) l l') :
    ∀ {a b : ℚ}, a ≤ b → l.foldl max a ≤ l'.foldl max b := by
  induction h with
  | nil => exact fun hab => hab
  | cons hxy hrest ih => exact fun hab => ih (max_le_max hab hxy)

theorem listMax_le_listMax {l l' : List ℚ} (h : List.Forall₂ (· ≤ ·) l l') :
    listMax l ≤ listMax l' := by
  cases h with
  | nil => exact le_refl 0
  | cons hxy hrest => exact foldl_max_mono hrest hxy

theorem listMax_nonneg (l : List ℚ) (h : ∀ x ∈ l, 0 ≤ x) : 0 ≤ listMax l := by
  cases l with
  | nil => exact le_refl 0
  | cons a t => exact le_trans (h a (List.mem_cons_self _ _)) (le_foldl_max t a)

theorem forall₂_le_refl (l : List ℚ) : List.Forall₂ (· ≤ ·) l l :=
  List.forall₂_same.mpr fun x _ => le_refl x

theorem forall₂_le_set (l : List ℚ) (j : ℕ) {a a' : ℚ} (h : a ≤ a') :
    List.Forall₂ (· ≤ ·) (l.set j a) (l.set j a') := by
  induction l generalizing j with
  | nil => exact List.Forall₂.nil
  | cons x t ih =>
    cases j with
    | zero => exact List.Forall₂.cons h (forall₂_le_refl t)
    | succ j => exact List.Forall₂.cons (le_refl x) (ih j)

theorem calculate_cpu_proposal_total (s : SimpleStrategySettings)
    (data : ContainerMap) (hcp : 0 < s.cpu_percentile)
    (hcp100 : s.cpu_percentile ≤ 100)
    (hne : ∀ kv ∈ data, kv.2 ≠ ([] : Series)) :
    ∃ v, s.calculate_cpu_proposal data = .ok v := by
  cases data with
  | nil => exact ⟨.NaN, rfl⟩
  | cons kv rest =>
    cases rest with
    | nil =>
      obtain ⟨v, hv⟩ := npPercentile_ok (valueColumn kv.2) s.cpu_percentile
        (valueColumn_ne_nil (hne kv (List.mem_cons_self _ _))) (le_of_lt hcp) hcp100
      exact ⟨.val v, by
        simp only [SimpleStrategySettings.calculate_cpu_proposal, hv, Except.map]⟩
    | cons kv₂ r =>
      have hflat : ((kv :: kv₂ :: r).map fun x => valueColumn x.2).flatten ≠ [] := by
        simp only [List.map_cons, List.flatten_cons]
        exact List.append_ne_nil_of_left_ne_nil
          (valueColumn_ne_nil (hne kv (List.mem_cons_self _ _))) _
      obtain ⟨v, hv⟩ := npPercentile_ok _ s.cpu_percentile hflat (le_of_lt hcp) hcp100
      exact ⟨.val v, by
        simp only [SimpleStrategySettings.calculate_cpu_proposal, hv, Except.map]⟩

theorem calculate_memory_proposal_total (s : SimpleStrategySettings)
    (data : ContainerMap) (hne : ∀ kv ∈ data, kv.2 ≠ ([] : Series)) :
    ∃ v, s.calculate_memory_proposal data = .ok v := by
  rw [calculate_memory_proposal_eq_memFromColumns]
  cases data with
  | nil => exact ⟨.NaN, rfl⟩
  | cons kv rest =>
    have hcols : ∀ x ∈ valueColumn kv.2 :: columns rest, x ≠ ([] : List ℚ) := by
      intro x hx
      have hx' : x ∈ columns (kv :: rest) := hx
      simp only [columns, List.mem_map] at hx'
      obtain ⟨kv', hkv', rfl⟩ := hx'
      exact valueColumn_ne_nil (hne kv' hkv')
    exact ⟨_, memFromColumns_ok s.memory_buffer_percentage (valueColumn kv.2)
      (columns rest) hcols⟩

/-- C1: `calculate_cpu_proposal` on non-empty series and valid settings
returns `NaN` when the mapping is empty; on exactly one container it returns
the `cpu_percentile`-th linearly interpolated percentile of that container's
value column; on two or more containers it returns that percentile of the
concatenation of all containers' value columns. -/
theorem calculate_cpu_proposal_cases (s : SimpleStrategySettings)
    (data : ContainerMap) (hcp : 0 < s.cpu_percentile)
    (hcp100 : s.cpu_percentile ≤ 100)
    (hne : ∀ kv ∈ data, kv.2 ≠ ([] : Series)) :
    (data = [] → s.calculate_cpu_proposal data = .ok .NaN)
    ∧ (∀ k series, data = [(k, series)] →
        s.calculate_cpu_proposal data =
          (npPercentile (valueColumn series) s.cpu_percentile).map .val)
    ∧ (2 ≤ data.length →
        s.calculate_cpu_proposal data =
          (npPercentile (columns data).flatten s.cpu_percentile).map .val) := by
  refine ⟨?_, ?_, ?_⟩
  · rintro rfl
    rfl
  · rintro k series rfl
    rfl
  · intro hlen
    cases data with
    | nil => simp at hlen
    | cons kv rest =>
      cases rest with
      | nil => simp at hlen
      | cons kv₂ r => rfl

/-- Witness for C1 at a concrete single-container input. -/
theorem calculate_cpu_proposal_cases_witness :
    SimpleStrategySettings.calculate_cpu_proposal ⟨99, 5⟩ [("a", [(0, 2)])] =
      (npPercentile (valueColumn [(0, 2)]) 99).map .val :=
  (calculate_cpu_proposal_cases ⟨99, 5⟩ [("a", [(0, 2)])] (by decide) (by decide)
    (by decide)).2.1 "a" [(0, 2)] rfl

/-- C2: `calculate_memory_proposal` returns `NaN` on an empty mapping and
otherwise the maximum over containers of each container's maximum value,
scaled by `1 + memory_buffer_percentage / 100`. -/
theorem calculate_memory_proposal_peak (s : SimpleStrategySettings)
    (data : ContainerMap) (hb : 0 < s.memory_buffer_percentage)
    (hne : ∀ kv ∈ data, kv.2 ≠ ([] : Series)) :
    (data = [] → s.calculate_memory_proposal data = .ok .NaN)
    ∧ (data ≠ [] →
        s.calculate_memory_proposal data =
          .ok (.val (listMax (data.map fun kv => listMax (valueColumn kv.2)) *
            (1 + s.memory_buffer_percentage / 100)))) := by
  refine ⟨?_, ?_⟩
  · rintro rfl
    rfl
  · intro hd
    cases data with
    | nil => exact absurd rfl hd
    | cons kv rest =>
      have hcols : ∀ x ∈ valueColumn kv.2 :: columns rest, x ≠ ([] : List ℚ) := by
        intro x hx
        have hx' : x ∈ columns (kv :: rest) := hx
        simp only [columns, List.mem_map] at hx'
        obtain ⟨kv', hkv', rfl⟩ := hx'
        exact valueColumn_ne_nil (hne kv' hkv')
      have key := memFromColumns_ok s.memory_buffer_percentage (valueColumn kv.2)
        (columns rest) hcols
      rw [calculate_memory_proposal_eq_memFromColumns,
        show columns (kv :: rest) = valueColumn kv.2 :: columns rest from rfl, key]
      simp only [columns, List.map_cons, List.map_map]
      rfl

/-- Witness for C2 at a concrete single-container input. -/
theorem calculate_memory_proposal_peak_witness :
    SimpleStrategySettings.calculate_memory_proposal ⟨99, 5⟩
        [("a", [(0, 10), (1, 20)])] =
      .ok (.val (listMax ([("a", [((0 : ℚ), (10 : ℚ)), (1, 20)])].map fun kv =>
        listMax (valueColumn kv.2)) * (1 + (5 : ℚ) / 100))) :=
  (calculate_memory_proposal_peak ⟨99, 5⟩ [("a", [(0, 10), (1, 20)])]
    (by decide) (by decide)).2 (by decide)

/-- C4: settings construction succeeds iff `0 < cpu_percentile ≤ 100` and
`0 < memory_buffer_percentage`; `cpu_percentile` 0 and 101 are rejected,
100 and 0.001 are accepted; the defaults are 99 and 5. -/
theorem mkSettings_spec :
    (∀ cp b : ℚ, (∃ s, mkSettings cp b = .ok s) ↔ (0 < cp ∧ cp ≤ 100 ∧ 0 < b))
    ∧ mkSettings 0 5 = .error .validationError
    ∧ mkSettings 101 5 = .error .validationError
    ∧ mkSettings 100 5 = .ok ⟨100, 5⟩
    ∧ mkSettings (1/1000) 5 = .ok ⟨1/1000, 5⟩
    ∧ ({} : SimpleStrategySettings).cpu_percentile = 99
    ∧ ({} : SimpleStrategySettings).memory_buffer_percentage = 5 := by
  refine ⟨?_, ?_, ?_, ?_, ?_, rfl, rfl⟩
  · intro cp b
    constructor
    · rintro ⟨s, hs⟩
      by_contra hc
      simp only [mkSettings] at hs
      rw [if_neg hc] at hs
      exact Except.noConfusion hs
    · intro hok
      refine ⟨⟨cp, b⟩, ?_⟩
      simp only [mkSettings]
      rw [if_pos hok]
  · norm_num [mkSettings]
  · norm_num [mkSettings]
  · norm_num [mkSettings]
  · norm_num [mkSettings]

/-- Witness for C4 at concrete parameters. -/
theorem mkSettings_spec_witness :
    (∃ s, mkSettings 99 5 = .ok s) ↔ ((0 : ℚ) < 99 ∧ (99 : ℚ) ≤ 100 ∧ (0 : ℚ) < 5) :=
  mkSettings_spec.1 99 5

/-- C7: on the concrete example (CPU series values 1, 2, 3 with
`cpu_percentile = 100`; Memory series values 10, 20 with buffer 5) the CPU
proposal is 3, the memory proposal is 21, and `run` assembles
`{CPU: (request 3, limit None), Memory: (request 21, limit 21)}`,
whatever the timestamps are. -/
theorem run_example (t0 t1 t2 : ℚ) :
    SimpleStrategySettings.calculate_cpu_proposal ⟨100, 5⟩
      [("A", [(t0, 1), (t1, 2), (t2, 3)])] = .ok (.val 3)
    ∧ SimpleStrategySettings.calculate_memory_proposal ⟨100, 5⟩
      [("A", [(t0, 10), (t1, 20)])] = .ok (.val 21)
    ∧ SimpleStrategy.run ⟨100, 5⟩
        [(.CPU, [("A", [(t0, 1), (t1, 2), (t2, 3)])]),
         (.Memory, [("A", [(t0, 10), (t1, 20)])])] () =
      .ok [(.CPU, ⟨some (.val 3), none⟩),
           (.Memory, ⟨some (.val 21), some (.val 21)⟩)] := by
  refine ⟨?_, ?_, ?_⟩ <;>
    norm_num [SimpleStrategy.run, dictGet, cpu_ne_memory, memory_ne_cpu,
      SimpleStrategySettings.calculate_cpu_proposal,
      SimpleStrategySettings.calculate_memory_proposal, mapExcept, npMax,
      valueColumn, npPercentile, Except.map, List.insertionSort,
      List.orderedInsert, Rat.floor, Int.toNat]

/-- Witness for C7 at timestamps 0, 1, 2. -/
theorem run_example_witness :
    SimpleStrategySettings.calculate_cpu_proposal ⟨100, 5⟩
      [("A", [(0, 1), (1, 2), (2, 3)])] = .ok (.val 3)
    ∧ SimpleStrategySettings.calculate_memory_proposal ⟨100, 5⟩
      [("A", [(0, 10), (1, 20)])] = .ok (.val 21)
    ∧ SimpleStrategy.run ⟨100, 5⟩
        [(.CPU, [("A", [(0, 1), (1, 2), (2, 3)])]),
         (.Memory, [("A", [(0, 10), (1, 20)])])] () =
      .ok [(.CPU, ⟨some (.val 3), none⟩),
           (.Memory, ⟨some (.val 21), some (.val 21)⟩)] :=
  run_example 0 1 2

/-- C8: both proposal functions depend only on the per-container value
columns; the timestamp columns are ignored entirely. -/
theorem proposals_ignore_timestamps (s : SimpleStrategySettings)
    (data data' : ContainerMap) (h : columns data = columns data') :
    s.calculate_cpu_proposal data = s.calculate_cpu_proposal data'
    ∧ s.calculate_memory_proposal data = s.calculate_memory_proposal data' := by
  constructor
  · rw [calculate_cpu_proposal_eq_cpuFromColumns,
      calculate_cpu_proposal_eq_cpuFromColumns, h]
  · rw [calculate_memory_proposal_eq_memFromColumns,
      calculate_memory_proposal_eq_memFromColumns, h]

/-- Witness for C8: same values, different timestamps. -/
theorem proposals_ignore_timestamps_witness :
    SimpleStrategySettings.calculate_cpu_proposal ⟨99, 5⟩ [("a", [(0, 4)])] =
      SimpleStrategySettings.calculate_cpu_proposal ⟨99, 5⟩ [("a", [(17, 4)])]
    ∧ SimpleStrategySettings.calculate_memory_proposal ⟨99, 5⟩ [("a", [(0, 4)])] =
      SimpleStrategySettings.calculate_memory_proposal ⟨99, 5⟩ [("a", [(17, 4)])] :=
  proposals_ignore_timestamps ⟨99, 5⟩ [("a", [(0, 4)])] [("a", [(17, 4)])] rfl

/-- C10: the single-container fast path of `calculate_cpu_proposal` is
redundant: on every non-empty mapping with non-empty series the branched
code agrees with the always-concatenate variant. -/
theorem cpu_branch_redundant (s : SimpleStrategySettings) (data : ContainerMap)
    (hd : data ≠ []) (hne : ∀ kv ∈ data, kv.2 ≠ ([] : Series)) :
    s.calculate_cpu_proposal data =
      calculate_cpu_proposal_unbranched s.cpu_percentile data := by
  cases data with
  | nil => exact absurd rfl hd
  | cons kv rest =>
    cases rest with
    | nil =>
      simp [SimpleStrategySettings.calculate_cpu_proposal,
        calculate_cpu_proposal_unbranched]
    | cons kv₂ r => rfl

/-- Witness for C10 at a concrete single-container input. -/
theorem cpu_branch_redundant_witness :
    SimpleStrategySettings.calculate_cpu_proposal ⟨99, 5⟩ [("a", [(0, 2)])] =
      calculate_cpu_proposal_unbranched 99 [("a", [(0, 2)])] :=
  cpu_branch_redundant ⟨99, 5⟩ [("a", [(0, 2)])] (by decide) (by decide)

theorem calculate_memory_proposal_val (s : SimpleStrategySettings)
    (data : ContainerMap) (hd : data ≠ [])
    (hne : ∀ kv ∈ data, kv.2 ≠ ([] : Series)) :
    s.calculate_memory_proposal data =
      .ok (.val (listMax ((columns data).map listMax) *
        (1 + s.memory_buffer_percentage / 100))) := by
  cases data with
  | nil => exact absurd rfl hd
  | cons kv rest =>
    have hcols : ∀ x ∈ valueColumn kv.2 :: columns rest, x ≠ ([] : List ℚ) := by
      intro x hx
      have hx' : x ∈ columns (kv :: rest) := hx
      simp only [columns, List.mem_map] at hx'
      obtain ⟨kv', hkv', rfl⟩ := hx'
      exact valueColumn_ne_nil (hne kv' hkv')
    rw [calculate_memory_proposal_eq_memFromColumns,
      show columns (kv :: rest) = valueColumn kv.2 :: columns rest from rfl,
      memFromColumns_ok s.memory_buffer_percentage (valueColumn kv.2)
        (columns rest) hcols]

/-- C3 counterexample: with the CPU key absent from the history data, `run`
raises `KeyError` instead of degrading to `NaN`. -/
theorem run_keyerror_on_absent_cpu :
    SimpleStrategy.run ⟨99, 5⟩ [(.Memory, [("a", [(0, 1)])])] () =
      .error (.keyError .CPU) := by
  norm_num [SimpleStrategy.run, dictGet, cpu_ne_memory, memory_ne_cpu]

/-- C3 (amended): when both resource types are present in the history data
(possibly with empty container mappings), every present series is non-empty
and the settings are valid, `run` returns entries for both CPU and Memory
and degrades an empty container mapping to a `NaN` recommendation instead of
raising. -/
theorem run_tolerates_empty_mappings (s : SimpleStrategySettings)
    (history_data : HistoryData) (cm mm : ContainerMap)
    (hcp : 0 < s.cpu_percentile) (hcp100 : s.cpu_percentile ≤ 100)
    (hC : dictGet history_data .CPU = some cm)
    (hM : dictGet history_data .Memory = some mm)
    (hcne : ∀ kv ∈ cm, kv.2 ≠ ([] : Series))
    (hmne : ∀ kv ∈ mm, kv.2 ≠ ([] : Series)) :
    ∃ res : RunResult, SimpleStrategy.run s history_data () = .ok res
      ∧ res.map Prod.fst = [.CPU, .Memory]
      ∧ (cm = [] → dictGet res .CPU = some ⟨some .NaN, none⟩)
      ∧ (mm = [] → dictGet res .Memory = some ⟨some .NaN, some .NaN⟩) := by
  obtain ⟨cpu, hcpu⟩ := calculate_cpu_proposal_total s cm hcp hcp100 hcne
  obtain ⟨mem, hmem⟩ := calculate_memory_proposal_total s mm hmne
  refine ⟨[(.CPU, ⟨some cpu, none⟩), (.Memory, ⟨some mem, some mem⟩)],
    ?_, rfl, ?_, ?_⟩
  · simp only [SimpleStrategy.run, hC, hcpu, hM, hmem]
  · rintro rfl
    have h2 : Except.ok PFloat.NaN = Except.ok cpu := hcpu
    injection h2 with h3
    subst h3
    rfl
  · rintro rfl
    have h2 : Except.ok PFloat.NaN = Except.ok mem := hmem
    injection h2 with h3
    subst h3
    rfl

/-- Witness for the amended C3 at empty container mappings. -/
theorem run_tolerates_empty_mappings_witness :
    ∃ res : RunResult,
      SimpleStrategy.run ⟨99, 5⟩ [(.CPU, []), (.Memory, [])] () = .ok res
      ∧ res.map Prod.fst = [.CPU, .Memory]
      ∧ (([] : ContainerMap) = [] → dictGet res .CPU = some ⟨some .NaN, none⟩)
      ∧ (([] : ContainerMap) = [] →
          dictGet res .Memory = some ⟨some .NaN, some .NaN⟩) :=
  run_tolerates_empty_mappings ⟨99, 5⟩ [(.CPU, []), (.Memory, [])] [] []
    (by decide) (by decide) (by decide) (by decide) (by decide) (by decide)

/-- C5: whenever `run` returns, the result covers exactly CPU and Memory,
the CPU recommendation is `(request = cpu proposal, limit = None)`, and the
Memory recommendation has request and limit both equal to the memory
proposal. -/
theorem run_shape (s : SimpleStrategySettings) (history_data : HistoryData)
    (res : RunResult) (h : SimpleStrategy.run s history_data () = .ok res) :
    res.map Prod.fst = [.CPU, .Memory]
    ∧ ∃ cm mm cpu mem,
        dictGet history_data .CPU = some cm
        ∧ dictGet history_data .Memory = some mm
        ∧ s.calculate_cpu_proposal cm = .ok cpu
        ∧ s.calculate_memory_proposal mm = .ok mem
        ∧ res = [(.CPU, ⟨some cpu, none⟩), (.Memory, ⟨some mem, some mem⟩)] := by
  unfold SimpleStrategy.run at h
  split at h
  next hC => exact Except.noConfusion h
  next cm hC =>
    split at h
    next e hcpu => exact Except.noConfusion h
    next cpu hcpu =>
      split at h
      next hM => exact Except.noConfusion h
      next mm hM =>
        split at h
        next e hmem => exact Except.noConfusion h
        next mem hmem =>
          injection h with h2
          subst h2
          exact ⟨rfl, cm, mm, cpu, mem, hC, hM, hcpu, hmem, rfl⟩

/-- Witness for C5 at a concrete input accepted by `run`. -/
theorem run_shape_witness :
    (([(ResourceType.CPU, (⟨some PFloat.NaN, none⟩ : ResourceRecommendation)),
       (ResourceType.Memory, ⟨some PFloat.NaN, some PFloat.NaN⟩)] : RunResult).map
        Prod.fst = [ResourceType.CPU, ResourceType.Memory])
    ∧ ∃ cm mm cpu mem,
        dictGet ([(ResourceType.CPU, []), (ResourceType.Memory, [])] : HistoryData)
          ResourceType.CPU = some cm
        ∧ dictGet ([(ResourceType.CPU, []), (ResourceType.Memory, [])] : HistoryData)
            ResourceType.Memory = some mm
        ∧ SimpleStrategySettings.calculate_cpu_proposal ⟨99, 5⟩ cm = .ok cpu
        ∧ SimpleStrategySettings.calculate_memory_proposal ⟨99, 5⟩ mm = .ok mem
        ∧ ([(ResourceType.CPU, ⟨some PFloat.NaN, none⟩),
            (ResourceType.Memory, ⟨some PFloat.NaN, some PFloat.NaN⟩)] : RunResult) =
          [(.CPU, ⟨some cpu, none⟩), (.Memory, ⟨some mem, some mem⟩)] :=
  run_shape ⟨99, 5⟩ [(.CPU, []), (.Memory, [])]
    [(.CPU, ⟨some .NaN, none⟩), (.Memory, ⟨some .NaN, some .NaN⟩)] (by decide)

/-- C9 counterexample: with one empty-series container next to a container
with data, `calculate_cpu_proposal` does not raise; it returns the
percentile of the pooled (still non-empty) sample set. -/
theorem cpu_proposal_ok_despite_empty_series :
    SimpleStrategySettings.calculate_cpu_proposal ⟨99, 5⟩
      [("a", []), ("b", [(0, 1)])] = .ok (.val 1) := by
  norm_num [SimpleStrategySettings.calculate_cpu_proposal, valueColumn,
    npPercentile, Except.map, List.insertionSort, List.orderedInsert, Rat.floor,
    Int.toNat]

/-- C9 (amended): with valid settings, if every present series is non-empty
both proposal functions return a value and never raise; if some series is
empty, `calculate_memory_proposal` raises `ValueError`, while
`calculate_cpu_proposal` raises (`IndexError`) only when the mapping is
non-empty and every series is empty, i.e. when the pooled sample set itself
is empty; the `NaN` branch covers only the empty mapping. -/
theorem proposals_totality (s : SimpleStrategySettings) (data : ContainerMap)
    (hcp : 0 < s.cpu_percentile) (hcp100 : s.cpu_percentile ≤ 100) :
    ((∀ kv ∈ data, kv.2 ≠ ([] : Series)) →
        (∃ v, s.calculate_cpu_proposal data = .ok v)
        ∧ ∃ w, s.calculate_memory_proposal data = .ok w)
    ∧ ((∃ kv ∈ data, kv.2 = ([] : Series)) →
        s.calculate_memory_proposal data = .error .valueError)
    ∧ (data ≠ [] → (∀ kv ∈ data, kv.2 = ([] : Series)) →
        s.calculate_cpu_proposal data = .error .indexError) := by
  have hcond : ¬(s.cpu_percentile < 0 ∨ 100 < s.cpu_percentile) := by
    push_neg
    exact ⟨le_of_lt hcp, hcp100⟩
  refine ⟨?_, ?_, ?_⟩
  · intro hne
    exact ⟨calculate_cpu_proposal_total s data hcp hcp100 hne,
      calculate_memory_proposal_total s data hne⟩
  · rintro ⟨kv, hkv, hkv2⟩
    rw [calculate_memory_proposal_eq_memFromColumns]
    have hcol : ∃ c ∈ columns data, c = ([] : List ℚ) := by
      refine ⟨valueColumn kv.2, ?_, by rw [hkv2]; rfl⟩
      simp only [columns, List.mem_map]
      exact ⟨kv, hkv, rfl⟩
    simp only [memFromColumns, mapExcept_npMax_error _ hcol]
  · intro hd hall
    cases data with
    | nil => exact absurd rfl hd
    | cons kv rest =>
      cases rest with
      | nil =>
        have hkv : kv.2 = [] := hall kv (List.mem_cons_self _ _)
        show Except.map PFloat.val (npPercentile (valueColumn kv.2) s.cpu_percentile) =
          Except.error PyError.indexError
        rw [hkv]
        show Except.map PFloat.val (npPercentile [] s.cpu_percentile) =
          Except.error PyError.indexError
        unfold npPercentile
        rw [if_neg hcond]
        rfl
      | cons kv₂ r =>
        have hflat : ((kv :: kv₂ :: r).map fun x => valueColumn x.2).flatten = [] := by
          rw [List.flatten_eq_nil_iff]
          intro l hl
          simp only [List.mem_map] at hl
          obtain ⟨kv', hkv', rfl⟩ := hl
          rw [hall kv' hkv']
          rfl
        show Except.map PFloat.val
          (npPercentile (((kv :: kv₂ :: r).map fun x => valueColumn x.2).flatten)
            s.cpu_percentile) = Except.error PyError.indexError
        rw [hflat]
        unfold npPercentile
        rw [if_neg hcond]
        rfl

/-- Witness for the amended C9 at concrete inputs. -/
theorem proposals_totality_witness :
    ((∀ kv ∈ ([("a", [((0 : ℚ), (2 : ℚ))])] : ContainerMap), kv.2 ≠ ([] : Series)) →
        (∃ v, SimpleStrategySettings.calculate_cpu_proposal ⟨99, 5⟩
          [("a", [(0, 2)])] = .ok v)
        ∧ ∃ w, SimpleStrategySettings.calculate_memory_proposal ⟨99, 5⟩
          [("a", [(0, 2)])] = .ok w)
    ∧ ((∃ kv ∈ ([("a", [((0 : ℚ), (2 : ℚ))])] : ContainerMap), kv.2 = ([] : Series)) →
        SimpleStrategySettings.calculate_memory_proposal ⟨99, 5⟩
          [("a", [(0, 2)])] = .error .valueError)
    ∧ (([("a", [((0 : ℚ), (2 : ℚ))])] : ContainerMap) ≠ [] →
        (∀ kv ∈ ([("a", [((0 : ℚ), (2 : ℚ))])] : ContainerMap), kv.2 = ([] : Series)) →
        SimpleStrategySettings.calculate_cpu_proposal ⟨99, 5⟩
          [("a", [(0, 2)])] = .error .indexError) :=
  proposals_totality ⟨99, 5⟩ [("a", [(0, 2)])] (by decide) (by decide)

/-- C6: `calculate_memory_proposal` is monotonically non-decreasing in the
buffer percentage (for fixed non-empty non-negative input) and in any single
sample value. -/
theorem calculate_memory_proposal_monotone :
    (∀ (s s' : SimpleStrategySettings) (data : ContainerMap),
        0 < s.memory_buffer_percentage →
        s.memory_buffer_percentage ≤ s'.memory_buffer_percentage →
        data ≠ [] → (∀ kv ∈ data, kv.2 ≠ ([] : Series)) →
        (∀ kv ∈ data, ∀ p ∈ kv.2, 0 ≤ p.2) →
        ∃ x x', s.calculate_memory_proposal data = .ok (.val x)
          ∧ s'.calculate_memory_proposal data = .ok (.val x') ∧ x ≤ x')
    ∧ (∀ (s : SimpleStrategySettings) (data : ContainerMap) (ci j : ℕ) (v v' : ℚ),
        0 < s.memory_buffer_percentage → v ≤ v' →
        data ≠ [] → (∀ kv ∈ data, kv.2 ≠ ([] : Series)) →
        ∃ x x', s.calculate_memory_proposal (setCVal data ci j v) = .ok (.val x)
          ∧ s.calculate_memory_proposal (setCVal data ci j v') = .ok (.val x')
          ∧ x ≤ x') := by
  constructor
  · intro s s' data hb hbb' hd hne hval
    have h1 := calculate_memory_proposal_val s data hd hne
    have h2 := calculate_memory_proposal_val s' data hd hne
    refine ⟨_, _, h1, h2, ?_⟩
    have hM : 0 ≤ listMax ((columns data).map listMax) := by
      apply listMax_nonneg
      intro x hx
      simp only [List.mem_map] at hx
      obtain ⟨c, hc, rfl⟩ := hx
      apply listMax_nonneg
      intro y hy
      simp only [columns, List.mem_map] at hc
      obtain ⟨kv, hkv, rfl⟩ := hc
      simp only [valueColumn, List.mem_map] at hy
      obtain ⟨p, hp, rfl⟩ := hy
      exact hval kv hkv p hp
    have hbuf : 1 + s.memory_buffer_percentage / 100 ≤
        1 + s'.memory_buffer_percentage / 100 := by linarith
    exact mul_le_mul_of_nonneg_left hbuf hM
  · intro s data ci j v v' hb hvv' hd hne
    by_cases hci : ci < data.length
    case neg =>
      have hsame : ∀ w : ℚ, setCVal data ci j w = data := fun w =>
        List.set_eq_of_length_le (le_of_not_lt hci)
      rw [hsame v, hsame v', calculate_memory_proposal_val s data hd hne]
      exact ⟨_, _, rfl, rfl, le_refl _⟩
    case pos =>
      cases data with
      | nil => exact absurd rfl hd
      | cons kv0 rest =>
        have hd1 : ∀ w : ℚ, setCVal (kv0 :: rest) ci j w ≠ [] := by
          intro w
          unfold setCVal
          cases ci with
          | zero => exact List.cons_ne_nil _ _
          | succ n => exact List.cons_ne_nil _ _
        have hne1 : ∀ w : ℚ, ∀ kv ∈ setCVal (kv0 :: rest) ci j w,
            kv.2 ≠ ([] : Series) := by
          intro w kv hkv
          rcases List.mem_or_eq_of_mem_set hkv with hmem | rfl
          · exact hne kv hmem
          · show setVal ((kv0 :: rest).getD ci ("", [])).2 j w ≠ []
            have hs0 : ((kv0 :: rest).getD ci ("", [])).2 ≠ [] := by
              have hmem0 : (kv0 :: rest).getD ci ("", []) ∈ kv0 :: rest := by
                rw [List.getD_eq_getElem?_getD, List.getElem?_eq_getElem hci]
                exact List.getElem_mem hci
              exact hne _ hmem0
            intro hnil
            have hlen0 := congrArg List.length hnil
            simp only [setVal, List.length_set, List.length_nil] at hlen0
            exact hs0 (List.length_eq_zero.mp hlen0)
        have h1 := calculate_memory_proposal_val s _ (hd1 v) (hne1 v)
        have h2 := calculate_memory_proposal_val s _ (hd1 v') (hne1 v')
        refine ⟨_, _, h1, h2, ?_⟩
        have hcols_eq : ∀ w : ℚ,
            (columns (setCVal (kv0 :: rest) ci j w)).map listMax =
              ((columns (kv0 :: rest)).map listMax).set ci
                (listMax ((valueColumn ((kv0 :: rest).getD ci ("", [])).2).set j w)) := by
          intro w
          simp only [setCVal, setVal, columns, valueColumn, List.map_set]
        rw [hcols_eq v, hcols_eq v']
        have hinner : listMax ((valueColumn ((kv0 :: rest).getD ci ("", [])).2).set j v) ≤
            listMax ((valueColumn ((kv0 :: rest).getD ci ("", [])).2).set j v') :=
          listMax_le_listMax (forall₂_le_set _ j hvv')
        have houter := listMax_le_listMax
          (forall₂_le_set ((columns (kv0 :: rest)).map listMax) ci hinner)
        have hbufpos : (0 : ℚ) ≤ 1 + s.memory_buffer_percentage / 100 := by linarith
        exact mul_le_mul_of_nonneg_right houter hbufpos

/-- Witness for C6 at a concrete input and buffers 5 and 6. -/
theorem calculate_memory_proposal_monotone_witness :
    ∃ x x', SimpleStrategySettings.calculate_memory_proposal ⟨99, 5⟩
        [("a", [(0, 2)])] = .ok (.val x)
      ∧ SimpleStrategySettings.calculate_memory_proposal ⟨99, 6⟩
        [("a", [(0, 2)])] = .ok (.val x')
      ∧ x ≤ x' :=
  calculate_memory_proposal_monotone.1 ⟨99, 5⟩ ⟨99, 6⟩ [("a", [(0, 2)])]
    (by decide) (by decide) (by decide) (by decide) (by decide)
